import Mathlib

/- Verification development for the MissMeester analysis script
   (src/missmeester.py).  We shallowly embed the analysis core: the
   per-ply engine evaluation with its fallback on failure (lines
   117-124), the delta-based tactic classification (lines 126-133),
   the batch accumulation of tactic records with their identifier
   index (lines 134-148), the top-level script control flow around
   the engine resource (lines 69-150), and the cursor navigation over
   the tactic index (lines 167-179).  Board geometry, FEN rendering,
   PGN parsing and the Streamlit UI are external collaborators: games
   arrive already parsed, and the engine is an oracle that either
   returns a score or fails for a given ply. -/

namespace MissMeester

/-- Environment variables visible to the script.  The script reads
STOCKFISH_PATH and ANALYSE_DEPTH (lines 14-15); the delta_small and
delta_large fields model threshold settings a deployment might place
in the environment, which the script never reads. -/
structure Env where
  stockfish_path : Option String
  analyse_depth : Option String
  delta_small : Option String
  delta_large : Option String
deriving Repr, DecidableEq

/-- Line 16: DELTA_SMALL = 100, a module-level literal. -/
def DELTA_SMALL : Int := 100

/-- Line 17: DELTA_LARGE = 200, a module-level literal. -/
def DELTA_LARGE : Int := 200

/-- The configuration the script actually runs with. -/
structure Config where
  stockfish_path : String
  analyse_depth : String
  delta_small : Int
  delta_large : Int
deriving Repr, DecidableEq

/-- Lines 14-17: the engine path and the analysis depth come from the
environment with defaults; the two thresholds are the literals above,
taken from no environment variable. -/
def loadConfig (env : Env) : Config :=
  { stockfish_path := env.stockfish_path.getD "/usr/local/bin/stockfish"
    analyse_depth := env.analyse_depth.getD "15"
    delta_small := DELTA_SMALL
    delta_large := DELTA_LARGE }

/-- One mainline move together with the engine outcome for the
position after it: some score when engine.analyse succeeds (line 121,
after the mate_score normalisation), none when it raises (line 122).
The move itself is kept as its UCI string; board mechanics live in the
external chess library. -/
structure Ply where
  move : String
  raw : Option Int
deriving Repr, DecidableEq

/-- A parsed game: the four headers read on line 114 plus the mainline
(line 115) with the engine oracle's outcome attached to each ply. -/
structure Game where
  white : String
  black : String
  event : String
  date : String
  moves : List Ply
deriving Repr, DecidableEq

/-- A tactic record as built on lines 135-144.  uuid4 draws are
modelled as a fresh supply: the field id holds the index of the draw
(the k-th record created in a batch run draws the k-th uuid).  The fen
and best_move fields of the Python dict are outputs of the external
chess library and are not modelled. -/
structure Tactic where
  white : String
  black : String
  event : String
  date : String
  id : Nat
  ply : Nat
  delta : Int
  eval_seq : List Int
  moves : List String
deriving Repr, DecidableEq

/-- The batch accumulators of lines 107-108: the ordered record list,
the identifier-to-position map (as an association list in insertion
order), and the number of uuid draws made so far. -/
structure BatchSt where
  all_tactics : List Tactic
  index_map : List (Nat × Nat)
  nextId : Nat
deriving Repr, DecidableEq

def emptyBatch : BatchSt := { all_tactics := [], index_map := [], nextId := 0 }

/-- gain condition, line 129. -/
def gain (dS dL prev_eval score : Int) : Bool :=
  decide (|prev_eval| < dS) && decide (|score| > dL)

/-- loss condition, line 130. -/
def loss (dS dL prev_eval score : Int) : Bool :=
  decide (prev_eval > dL) && decide (score - prev_eval < -dL)

/-- flip condition, line 131. -/
def flip (dS dL prev_eval score : Int) : Bool :=
  decide (prev_eval * score < 0) && decide (|score - prev_eval| > dL)

/-- The per-pair flag decision of lines 127-133: the outer
small-delta gate, then the three-way disjunction. -/
def flagCond (dS dL prev_eval score : Int) : Bool :=
  if |score - prev_eval| > dS then
    gain dS dL prev_eval score || loss dS dL prev_eval score || flip dS dL prev_eval score
  else false

/-- How the script's flag decision depends on the environment: it uses
the thresholds of the loaded configuration (which are the hard-coded
literals). -/
def configFlag (env : Env) (prev_eval score : Int) : Bool :=
  flagCond (loadConfig env).delta_small (loadConfig env).delta_large prev_eval score

/-- The score recorded for one ply (lines 119-123): the engine result
when analyse succeeds, otherwise the previous known score, or 0 when
no previous score exists. -/
def curScore (p : Ply) (prev_eval : Option Int) : Int :=
  match p.raw with
  | some v => v
  | none => prev_eval.getD 0

/-- Record construction, lines 135-144. -/
def mkTactic (g : Game) (n ply : Nat) (delta : Int) (eval_seq : List Int) : Tactic :=
  { white := g.white, black := g.black, event := g.event, date := g.date
    id := n, ply := ply, delta := delta, eval_seq := eval_seq
    moves := g.moves.map Ply.move }

/-- The classification block of lines 126-146 for one ply: when a
prev_eval exists and the pair is flagged, draw a fresh id, put its
position (the current record count) in index_map and append the
record built from the current eval_seq; otherwise leave the
accumulators alone. -/
def plyUpdate (dS dL : Int) (g : Game) (ply : Nat) (prev_eval : Option Int)
    (score : Int) (eval_seq' : List Int) (st : BatchSt) : BatchSt :=
  match prev_eval with
  | none => st
  | some v =>
    if flagCond dS dL v score then
      { all_tactics := st.all_tactics ++ [mkTactic g st.nextId ply (score - v) eval_seq']
        index_map := st.index_map ++ [(st.nextId, st.all_tactics.length)]
        nextId := st.nextId + 1 }
    else st

/-- The per-ply loop of lines 117-147 for one game, with the batch
accumulators threaded through: append the (possibly substituted)
score to eval_seq, run the classification block on it, then set
prev_eval to the score. -/
def runPlies (dS dL : Int) (g : Game) :
    List Ply → Nat → Option Int → List Int → BatchSt → List Int × BatchSt
  | [], _, _, eval_seq, st => (eval_seq, st)
  | p :: rest, ply, prev_eval, eval_seq, st =>
    runPlies dS dL g rest (ply + 1) (some (curScore p prev_eval))
      (eval_seq ++ [curScore p prev_eval])
      (plyUpdate dS dL g ply prev_eval (curScore p prev_eval)
        (eval_seq ++ [curScore p prev_eval]) st)

/-- One game's pass through the batch loop body (lines 110-147):
fresh prev_eval and eval_seq, accumulators carried over.  The per-game
eval_seq is a local of the loop body and is dropped here, exactly as
the script drops it after the iteration. -/
def analyseGame (dS dL : Int) (g : Game) (st : BatchSt) : BatchSt :=
  (runPlies dS dL g g.moves 0 none [] st).2

/-- The batch loop of lines 110-148 over all games. -/
def runBatch (dS dL : Int) (games : List Game) : BatchSt :=
  games.foldl (fun st g => analyseGame dS dL g st) emptyBatch

/-- A single game analysed with the script's thresholds. -/
def runGameScript (g : Game) : BatchSt :=
  analyseGame DELTA_SMALL DELTA_LARGE g emptyBatch

/-- The whole batch analysed with the script's thresholds. -/
def runBatchScript (games : List Game) : BatchSt :=
  runBatch DELTA_SMALL DELTA_LARGE games

/-- The full evaluation sequence the loop computes for one game,
starting from a given prev_eval. -/
def scoresAux (prev_eval : Option Int) : List Ply → List Int
  | [] => []
  | p :: rest =>
    let score := curScore p prev_eval
    score :: scoresAux (some score) rest

/-- The evaluation sequence recorded for a game (its eval_seq after
the loop). -/
def scores (g : Game) : List Int := scoresAux none g.moves

/-- The value of prev_eval after the loop has consumed the given
plies, starting from a given prev_eval. -/
def chainPrev (prev_eval : Option Int) : List Ply → Option Int
  | [] => prev_eval
  | p :: rest => chainPrev (some (curScore p prev_eval)) rest

/-- The classification outcome for one ply: the signed delta when the
ply is flagged against the given prev_eval, none otherwise. -/
def stepFlag (dS dL : Int) (prev_eval : Option Int) (score : Int) : Option Int :=
  match prev_eval with
  | none => none
  | some v => if flagCond dS dL v score then some (score - v) else none

/-- The classification outcome at relative position k of the given
plies, starting from a given prev_eval. -/
def flagInfo (dS dL : Int) (prev_eval : Option Int) : List Ply → Nat → Option Int
  | [], _ => none
  | p :: rest, k =>
    let score := curScore p prev_eval
    match k with
    | 0 => stepFlag dS dL prev_eval score
    | k + 1 => flagInfo dS dL (some score) rest k

/-- How many plies of the list get flagged, starting from a given
prev_eval. -/
def flagCount (dS dL : Int) (prev_eval : Option Int) : List Ply → Nat
  | [] => 0
  | p :: rest =>
    let score := curScore p prev_eval
    (match prev_eval with
     | none => 0
     | some v => if flagCond dS dL v score then 1 else 0) + flagCount dS dL (some score) rest

/-- The shape every emitted record has: its eval_seq covers exactly
plies 0..ply, the ply is at least 1 and within the owning game's move
list (carried in full in the record), and the last recorded score is
the cur whose delta against the score before it triggered the
flag. -/
def goodRecord (dS dL : Int) (t : Tactic) : Prop :=
  t.eval_seq.length = t.ply + 1 ∧ 1 ≤ t.ply ∧ t.ply < t.moves.length ∧
  ∃ prev cur, t.eval_seq.get? (t.ply - 1) = some prev ∧
    t.eval_seq.get? t.ply = some cur ∧ t.eval_seq.getLast? = some cur ∧
    t.delta = cur - prev ∧ flagCond dS dL prev cur = true

/-- A navigation action of the UI: the two buttons of lines 171-174
and the query-parameter jump of lines 177-179 (with the optional
opgave parameter value). -/
inductive NavOp where
  | back
  | forward
  | jump (sel : Option String)
deriving Repr, DecidableEq

/-- One navigation action applied to the cursor: the back button
clamps at 0, the forward button clamps at count - 1, and the jump
moves to the mapped position only when the selector is a known key of
the index map. -/
def navStep (count : Nat) (m : List (String × Nat)) (i : Int) : NavOp → Int
  | NavOp.back => max 0 (i - 1)
  | NavOp.forward => min ((count : Int) - 1) (i + 1)
  | NavOp.jump sel =>
    match sel with
    | none => i
    | some s =>
      match m.lookup s with
      | some p => (p : Int)
      | none => i

/-- The exit taken by one run of the script. -/
inductive ExitKind where
  | fatalInit
  | noUpload
  | emptyPgn
  | noGames
  | completed
deriving Repr, DecidableEq

/-- What one run of the script did with the engine resource, and what
it produced. -/
structure RunResult where
  engineAcquired : Bool
  engineQuits : Nat
  exitKind : ExitKind
  output : Option BatchSt
deriving Repr, DecidableEq

/-- The top-level control flow of lines 69-150: engine start (a
failed start reports and stops, lines 70-75), the upload gate (line
85), the blank-file gate of line 89 (the strip test holds exactly
when every character is whitespace), the empty-parse gate (line 101),
then the batch loop followed by the single engine.quit of line 150.
PGN parsing is the external chess library, supplied as an oracle. -/
def runScript (engineOk : Bool) (uploaded : Option String)
    (parseGames : String → List Game) : RunResult :=
  if engineOk = false then
    { engineAcquired := false, engineQuits := 0, exitKind := ExitKind.fatalInit, output := none }
  else
    match uploaded with
    | none =>
      { engineAcquired := true, engineQuits := 0, exitKind := ExitKind.noUpload, output := none }
    | some txt =>
      if txt.data.all (fun c => c.isWhitespace) then
        { engineAcquired := true, engineQuits := 0, exitKind := ExitKind.emptyPgn, output := none }
      else
        match parseGames txt with
        | [] =>
          { engineAcquired := true, engineQuits := 0, exitKind := ExitKind.noGames, output := none }
        | gme :: rest =>
          { engineAcquired := true, engineQuits := 1, exitKind := ExitKind.completed
            output := some (runBatchScript (gme :: rest)) }

/-- A two-ply game whose evaluations never move: no ply is flagged. -/
def gNoFlag : Game :=
  { white := "W", black := "B", event := "E", date := "2020.01.01"
    moves := [{ move := "e2e4", raw := some 10 }, { move := "e7e5", raw := some 20 }] }

/-- A two-ply game with a balanced first ply and a decisive second
ply: ply 1 is flagged as a gain. -/
def gFlag : Game :=
  { white := "W", black := "B", event := "E", date := "2020.01.01"
    moves := [{ move := "e2e4", raw := some 0 }, { move := "e7e5", raw := some 300 }] }

/-- A two-ply game whose second engine call fails. -/
def gSubst : Game :=
  { white := "W", black := "B", event := "E", date := "2020.01.01"
    moves := [{ move := "e2e4", raw := some 100 }, { move := "e7e5", raw := none }] }

/-- A one-ply game whose only engine call fails. -/
def gNoneOnly : Game :=
  { white := "W", black := "B", event := "E", date := "2020.01.01"
    moves := [{ move := "e2e4", raw := none }] }

/-- A two-ply game whose first engine call fails and whose second
returns a decisive score. -/
def gLeadNone : Game :=
  { white := "W", black := "B", event := "E", date := "2020.01.01"
    moves := [{ move := "e2e4", raw := none }, { move := "e7e5", raw := some 300 }] }

/-- An environment carrying the known deployment thresholds 50 and
100 as the delta_small and delta_large settings. -/
def envDeltas : Env :=
  { stockfish_path := none, analyse_depth := none,
    delta_small := some "50", delta_large := some "100" }

/-- The record the analysis of gFlag produces (ply 1, delta 300). -/
def gFlagTactic : Tactic :=
  { white := "W", black := "B", event := "E", date := "2020.01.01",
    id := 0, ply := 1, delta := 300, eval_seq := [0, 300],
    moves := ["e2e4", "e7e5"] }

/-- The Bool flag decision unfolded to the arithmetic conditions. -/
theorem flagCond_eq_true_iff (dS dL pe s : Int) :
    flagCond dS dL pe s = true ↔
      |s - pe| > dS ∧ ((|pe| < dS ∧ |s| > dL) ∨ (pe > dL ∧ s - pe < -dL) ∨
        (pe * s < 0 ∧ |s - pe| > dL)) := by
  unfold flagCond gain loss flip
  by_cases h : |s - pe| > dS
  · simp [h, Bool.or_eq_true, Bool.and_eq_true, decide_eq_true_eq, or_assoc]
  · simp [h]

/-- A pair with zero delta is never flagged when the small threshold
is nonnegative. -/
theorem flagCond_self (dS dL v : Int) (h : 0 ≤ dS) : flagCond dS dL v v = false := by
  unfold flagCond
  rw [sub_self, abs_zero, if_neg (by omega)]

/-- The classification block only appends records. -/
theorem plyUpdate_mono (dS dL : Int) (g : Game) (ply : Nat) (pe : Option Int)
    (score : Int) (eseq : List Int) (st : BatchSt) (t : Tactic)
    (ht : t ∈ st.all_tactics) :
    t ∈ (plyUpdate dS dL g ply pe score eseq st).all_tactics := by
  unfold plyUpdate
  cases pe with
  | none => exact ht
  | some v =>
    dsimp only
    split
    · exact List.mem_append_left _ ht
    · exact ht

/-- A record added by the classification block is either old or the
fresh record for the current ply. -/
theorem plyUpdate_mem (dS dL : Int) (g : Game) (ply : Nat) (pe : Option Int)
    (score : Int) (eseq : List Int) (st : BatchSt) (t : Tactic)
    (ht : t ∈ (plyUpdate dS dL g ply pe score eseq st).all_tactics) :
    t ∈ st.all_tactics ∨
      ∃ v, pe = some v ∧ flagCond dS dL v score = true ∧
        t = mkTactic g st.nextId ply (score - v) eseq := by
  unfold plyUpdate at ht
  cases pe with
  | none => exact Or.inl ht
  | some v =>
    dsimp only at ht
    split at ht
    · rcases List.mem_append.1 ht with h | h
      · exact Or.inl h
      · rcases List.mem_singleton.1 h with rfl
        exact Or.inr ⟨v, rfl, by assumption, rfl⟩
    · exact Or.inl ht

/-- Records already accumulated survive the rest of the loop. -/
theorem runPlies_mono (dS dL : Int) (g : Game) :
    ∀ (ps : List Ply) (ply : Nat) (pe : Option Int) (eseq : List Int) (st : BatchSt)
      (t : Tactic), t ∈ st.all_tactics →
      t ∈ (runPlies dS dL g ps ply pe eseq st).2.all_tactics := by
  intro ps
  induction ps with
  | nil => intro ply pe eseq st t ht; simpa [runPlies] using ht
  | cons p rest ih =>
    intro ply pe eseq st t ht
    simp only [runPlies]
    exact ih _ _ _ _ t (plyUpdate_mono _ _ _ _ _ _ _ _ t ht)

/-- Any record in the loop's result is an old one or has its ply in
the window still to be processed. -/
theorem runPlies_ply_mem (dS dL : Int) (g : Game) :
    ∀ (ps : List Ply) (ply : Nat) (pe : Option Int) (eseq : List Int) (st : BatchSt)
      (t : Tactic), t ∈ (runPlies dS dL g ps ply pe eseq st).2.all_tactics →
      t ∈ st.all_tactics ∨ (ply ≤ t.ply ∧ t.ply < ply + ps.length) := by
  intro ps
  induction ps with
  | nil =>
    intro ply pe eseq st t ht
    simp only [runPlies] at ht
    exact Or.inl ht
  | cons p rest ih =>
    intro ply pe eseq st t ht
    simp only [runPlies] at ht
    rcases ih _ _ _ _ t ht with h | h
    · rcases plyUpdate_mem dS dL g ply pe _ _ st t h with h' | ⟨v, _, _, rfl⟩
      · exact Or.inl h'
      · refine Or.inr ?_
        simp only [mkTactic, List.length_cons]
        omega
    · obtain ⟨h1, h2⟩ := h
      refine Or.inr ?_
      simp only [List.length_cons]
      omega

/-- The classification block keeps every record's ply below the next
ply to be processed. -/
theorem plyUpdate_ply_lt (dS dL : Int) (g : Game) (ply : Nat) (pe : Option Int)
    (score : Int) (eseq : List Int) (st : BatchSt)
    (hst : ∀ t ∈ st.all_tactics, t.ply < ply) :
    ∀ t ∈ (plyUpdate dS dL g ply pe score eseq st).all_tactics, t.ply < ply + 1 := by
  intro t ht
  rcases plyUpdate_mem dS dL g ply pe score eseq st t ht with h | ⟨v, _, _, rfl⟩
  · exact Nat.lt_succ_of_lt (hst t h)
  · simp only [mkTactic]
    omega

/-- The loop flags exactly the plies flagInfo says it does, with the
delta flagInfo computes: a record with ply k exists in the result iff
flagInfo is some at relative position k, and any such record carries
that delta. -/
theorem runPlies_flag_char (dS dL : Int) (g : Game) :
    ∀ (ps : List Ply) (ply : Nat) (pe : Option Int) (eseq : List Int) (st : BatchSt)
      (k : Nat), ply ≤ k → (∀ t ∈ st.all_tactics, t.ply < ply) →
      ((∃ t ∈ (runPlies dS dL g ps ply pe eseq st).2.all_tactics, t.ply = k) ↔
        (flagInfo dS dL pe ps (k - ply)).isSome = true) ∧
      (∀ t ∈ (runPlies dS dL g ps ply pe eseq st).2.all_tactics, t.ply = k →
        some t.delta = flagInfo dS dL pe ps (k - ply)) := by
  intro ps
  induction ps with
  | nil =>
    intro ply pe eseq st k hk hst
    simp only [runPlies, flagInfo]
    constructor
    · constructor
      · rintro ⟨t, ht, rfl⟩
        exact absurd (hst t ht) (by omega)
      · intro h
        simp [Option.isSome] at h
    · intro t ht rfl
      exact absurd (hst t ht) (by omega)
  | cons p rest ih =>
    intro ply pe eseq st k hk hst
    simp only [runPlies]
    have hst' := plyUpdate_ply_lt dS dL g ply pe (curScore p pe)
      (eseq ++ [curScore p pe]) st hst
    rcases Nat.lt_or_ge ply k with hlt | hge
    · -- the record for ply k, if any, comes from the rest of the loop
      obtain ⟨j, rfl⟩ : ∃ j, k = (ply + 1) + j := ⟨k - (ply + 1), by omega⟩
      have hsub : (ply + 1) + j - ply = j + 1 := by omega
      rw [hsub]
      have := ih (ply + 1) (some (curScore p pe)) (eseq ++ [curScore p pe])
        (plyUpdate dS dL g ply pe (curScore p pe) (eseq ++ [curScore p pe]) st)
        ((ply + 1) + j) (by omega) hst'
      simpa only [flagInfo, Nat.add_sub_cancel_left] using this
    · -- k = ply: decided at this iteration
      have hke : k = ply := by omega
      subst hke
      rw [Nat.sub_self]
      have hmem := runPlies_ply_mem dS dL g rest (k + 1) (some (curScore p pe))
        (eseq ++ [curScore p pe])
        (plyUpdate dS dL g k pe (curScore p pe) (eseq ++ [curScore p pe]) st)
      have hmono := runPlies_mono dS dL g rest (k + 1) (some (curScore p pe))
        (eseq ++ [curScore p pe])
        (plyUpdate dS dL g k pe (curScore p pe) (eseq ++ [curScore p pe]) st)
      constructor
      · constructor
        · rintro ⟨t, ht, rfl⟩
          rcases hmem t ht with h | h
          · rcases plyUpdate_mem dS dL g t.ply pe _ _ st t h with h' | ⟨v, hv, hf, hts⟩
            · exact absurd (hst t h') (by omega)
            · subst hv
              simp only [flagInfo, stepFlag, hf, if_true, Option.isSome_some]
          · omega
        · intro hs
          simp only [flagInfo] at hs
          cases pe with
          | none => simp [stepFlag] at hs
          | some v =>
            simp only [stepFlag] at hs
            by_cases hf : flagCond dS dL v (curScore p (some v)) = true
            · refine ⟨mkTactic g st.nextId k (curScore p (some v) - v)
                (eseq ++ [curScore p (some v)]), ?_, rfl⟩
              apply hmono
              unfold plyUpdate
              simp only [hf, if_true]
              exact List.mem_append_right _ (List.mem_singleton.2 rfl)
            · rw [if_neg hf] at hs
              simp [Option.isSome] at hs
      · intro t ht hpt
        rcases hmem t ht with h | h
        · rcases plyUpdate_mem dS dL g k pe _ _ st t h with h' | ⟨v, hv, hf, hts⟩
          · exact absurd (hst t h') (by omega)
          · subst hv hts
            simp only [flagInfo, stepFlag, hf, if_true, mkTactic]
        · omega

/-- The classification outcome at position k is the step decision
against the prev_eval accumulated over the first k plies. -/
theorem flagInfo_get (dS dL : Int) :
    ∀ (ps : List Ply) (k : Nat) (p : Ply) (pe : Option Int), ps.get? k = some p →
      flagInfo dS dL pe ps k =
        stepFlag dS dL (chainPrev pe (ps.take k))
          (curScore p (chainPrev pe (ps.take k))) := by
  intro ps
  induction ps with
  | nil => intro k p pe h; simp at h
  | cons q rest ih =>
    intro k p pe h
    cases k with
    | zero =>
      simp only [List.get?] at h
      cases h
      simp [flagInfo, chainPrev, List.take]
    | succ k =>
      simp only [List.get?] at h
      simp only [flagInfo, List.take, chainPrev]
      exact ih k p (some (curScore q pe)) h

/-- Over plies with no available raw score the accumulated prev_eval
never changes: every failed evaluation substitutes it back. -/
theorem chainPrev_of_no_raw :
    ∀ (ps : List Ply) (v : Int), ps.filterMap Ply.raw = [] →
      chainPrev (some v) ps = some v := by
  intro ps
  induction ps with
  | nil => intro v _; rfl
  | cons p rest ih =>
    intro v h
    rw [List.filterMap_cons] at h
    cases hr : p.raw with
    | some w => rw [hr] at h; simp at h
    | none =>
      rw [hr] at h
      simp only [chainPrev, curScore, hr, Option.getD_some]
      exact ih v h

/-- When some raw score is available among the plies, the accumulated
prev_eval after them is the last available raw score. -/
theorem chainPrev_lastAvail :
    ∀ (ps : List Ply) (pe : Option Int) (prev : Int),
      (ps.filterMap Ply.raw).getLast? = some prev → chainPrev pe ps = some prev := by
  intro ps
  induction ps with
  | nil => intro pe prev h; simp at h
  | cons p rest ih =>
    intro pe prev h
    rw [List.filterMap_cons] at h
    by_cases hr : rest.filterMap Ply.raw = []
    · cases hpr : p.raw with
      | none =>
        rw [hpr, hr] at h
        simp at h
      | some w =>
        rw [hpr, hr] at h
        simp only [List.getLast?_singleton, Option.some.injEq] at h
        subst h
        simp only [chainPrev, curScore, hpr]
        exact chainPrev_of_no_raw rest w hr
    · obtain ⟨x, xs, hfm⟩ : ∃ x xs, rest.filterMap Ply.raw = x :: xs := by
        cases hfm : rest.filterMap Ply.raw with
        | nil => exact absurd hfm hr
        | cons x xs => exact ⟨x, xs, rfl⟩
      have hlast : (rest.filterMap Ply.raw).getLast? = some prev := by
        cases hpr : p.raw with
        | none => rw [hpr] at h; exact h
        | some w =>
          rw [hpr, hfm] at h
          rw [hfm]
          simpa [List.getLast?_cons_cons] using h
      simp only [chainPrev]
      exact ih (some (curScore p pe)) prev hlast

/-- The recorded score at position k is the substitution rule applied
to the ply there, against the prev_eval accumulated over the first k
plies. -/
theorem scoresAux_get :
    ∀ (ps : List Ply) (k : Nat) (p : Ply) (pe : Option Int), ps.get? k = some p →
      (scoresAux pe ps).get? k = some (curScore p (chainPrev pe (ps.take k))) := by
  intro ps
  induction ps with
  | nil => intro k p pe h; simp at h
  | cons q rest ih =>
    intro k p pe h
    cases k with
    | zero =>
      simp only [List.get?] at h
      cases h
      simp [scoresAux, chainPrev, List.take]
    | succ k =>
      simp only [List.get?] at h
      simp only [scoresAux, List.take, chainPrev, List.get?]
      exact ih k p (some (curScore q pe)) h

/-- The accumulated prev_eval over k + 1 plies is the recorded score
of ply k. -/
theorem chainPrev_take_succ :
    ∀ (ps : List Ply) (k : Nat) (p : Ply) (pe : Option Int), ps.get? k = some p →
      chainPrev pe (ps.take (k + 1)) =
        some (curScore p (chainPrev pe (ps.take k))) := by
  intro ps
  induction ps with
  | nil => intro k p pe h; simp at h
  | cons q rest ih =>
    intro k p pe h
    cases k with
    | zero =>
      simp only [List.get?] at h
      cases h
      simp [chainPrev, List.take]
    | succ k =>
      simp only [List.get?] at h
      simp only [List.take, chainPrev]
      exact ih k p (some (curScore q pe)) h

/-- The eval sequence has one recorded score per ply. -/
theorem scoresAux_length :
    ∀ (ps : List Ply) (pe : Option Int), (scoresAux pe ps).length = ps.length := by
  intro ps
  induction ps with
  | nil => intro pe; rfl
  | cons p rest ih =>
    intro pe
    simp [scoresAux, ih]

end MissMeester

namespace MissMeester

/-- C6: with DELTA_SMALL = 100 and DELTA_LARGE = 200 the classifier
flags prev = 50, cur = 260 (a gain, delta 210), flags prev = 300,
cur = 50 (a loss, delta -250), flags prev = 150, cur = -160 (a flip,
absolute delta 310), and does not flag prev = 30, cur = 90 (absolute
delta 60, not above 100). -/
theorem C6_concrete_pairs :
    flagCond DELTA_SMALL DELTA_LARGE 50 260 = true ∧
      gain DELTA_SMALL DELTA_LARGE 50 260 = true ∧ (260 - 50 : Int) = 210 ∧
    flagCond DELTA_SMALL DELTA_LARGE 300 50 = true ∧
      loss DELTA_SMALL DELTA_LARGE 300 50 = true ∧ (50 - 300 : Int) = -250 ∧
    flagCond DELTA_SMALL DELTA_LARGE 150 (-160) = true ∧
      flip DELTA_SMALL DELTA_LARGE 150 (-160) = true ∧ |(-160 : Int) - 150| = 310 ∧
    flagCond DELTA_SMALL DELTA_LARGE 30 90 = false := by
  decide

/-- C1: in a game's analysis, a ply k whose own raw score cur is
available and for which a previous available score prev exists (the
last available raw score among the earlier plies) is flagged iff the
absolute delta exceeds DELTA_SMALL and the gain, loss or flip
condition holds exactly as the spec states them (the flip case
keeping both the product-sign check and the large-delta check); a
record emitted for that ply carries the signed delta cur - prev. -/
theorem C1_classifier_rule (dS dL : Int) (g : Game) (k : Nat) (p : Ply)
    (cur prev : Int) (hp : g.moves.get? k = some p) (hraw : p.raw = some cur)
    (hprev : ((g.moves.take k).filterMap Ply.raw).getLast? = some prev) :
    ((∃ t ∈ (analyseGame dS dL g emptyBatch).all_tactics, t.ply = k) ↔
      (|cur - prev| > dS ∧ ((|prev| < dS ∧ |cur| > dL) ∨
        (prev > dL ∧ cur - prev < -dL) ∨
        (prev * cur < 0 ∧ |cur - prev| > dL)))) ∧
    (∀ t ∈ (analyseGame dS dL g emptyBatch).all_tactics, t.ply = k →
      t.delta = cur - prev) := by
  have hchain : chainPrev none (g.moves.take k) = some prev :=
    chainPrev_lastAvail _ none prev hprev
  have hcur : curScore p (some prev) = cur := by simp [curScore, hraw]
  have hfi : flagInfo dS dL none g.moves k =
      stepFlag dS dL (some prev) cur := by
    rw [flagInfo_get dS dL g.moves k p none hp, hchain, hcur]
  have hmain := runPlies_flag_char dS dL g g.moves 0 none [] emptyBatch k
    (Nat.zero_le k) (by intro t ht; simp [emptyBatch] at ht)
  rw [Nat.sub_zero] at hmain
  unfold analyseGame
  constructor
  · rw [hmain.1, hfi]
    simp only [stepFlag]
    by_cases hf : flagCond dS dL prev cur = true
    · rw [if_pos hf, flagCond_eq_true_iff] at *
      simp [hf]
    · rw [if_neg hf]
      rw [flagCond_eq_true_iff] at hf
      simp [hf]
  · intro t ht hpt
    have hd := hmain.2 t ht hpt
    rw [hfi] at hd
    simp only [stepFlag] at hd
    by_cases hf : flagCond dS dL prev cur = true
    · rw [if_pos hf] at hd
      exact Option.some.inj hd
    · rw [if_neg hf] at hd
      simp at hd

/-- C1 witness: on the concrete game gFlag the hypotheses hold at
ply 1 with cur = 300 and prev = 0, and the theorem applies. -/
theorem C1_classifier_rule_witness :
    gFlag.moves.get? 1 = some { move := "e7e5", raw := some 300 } ∧
    ({ move := "e7e5", raw := some 300 } : Ply).raw = some 300 ∧
    ((gFlag.moves.take 1).filterMap Ply.raw).getLast? = some 0 ∧
    (((∃ t ∈ (analyseGame DELTA_SMALL DELTA_LARGE gFlag emptyBatch).all_tactics,
        t.ply = 1) ↔
      (|(300 : Int) - 0| > DELTA_SMALL ∧ ((|(0 : Int)| < DELTA_SMALL ∧
        |(300 : Int)| > DELTA_LARGE) ∨
        ((0 : Int) > DELTA_LARGE ∧ (300 : Int) - 0 < -DELTA_LARGE) ∨
        ((0 : Int) * 300 < 0 ∧ |(300 : Int) - 0| > DELTA_LARGE)))) ∧
    (∀ t ∈ (analyseGame DELTA_SMALL DELTA_LARGE gFlag emptyBatch).all_tactics,
      t.ply = 1 → t.delta = 300 - 0)) :=
  ⟨by decide, by decide, by decide,
    C1_classifier_rule DELTA_SMALL DELTA_LARGE gFlag 1
      { move := "e7e5", raw := some 300 } 300 0 (by decide) (by decide) (by decide)⟩

/-- C5 counterexample: in the game gLeadNone the engine fails on ply
0, so no previous score is ever available before ply 1; yet ply 1 is
flagged, because the failed evaluation was substituted with the
literal 0 and the pair (0, 300) passes the gain rule.  This refutes
the part of the claim requiring an available previous score for every
flag. -/
theorem C5_counterexample :
    (∃ t ∈ (runGameScript gLeadNone).all_tactics, t.ply = 1) ∧
    ((gLeadNone.moves.take 1).filterMap Ply.raw).getLast? = none := by
  decide

/-- C5 amended: a flagged ply always has index at least 1 (the first
ply is never flagged) and its own raw score is always available; but
no availability of any earlier raw score is required, since
unavailable scores are substituted by the previous known score or by
0. -/
theorem C5_amended (g : Game) :
    ∀ t ∈ (runGameScript g).all_tactics,
      1 ≤ t.ply ∧ ∃ p, g.moves.get? t.ply = some p ∧ p.raw.isSome = true := by
  intro t ht
  have ht' : t ∈ (runPlies DELTA_SMALL DELTA_LARGE g g.moves 0 none []
      emptyBatch).2.all_tactics := ht
  have hmain := runPlies_flag_char DELTA_SMALL DELTA_LARGE g g.moves 0 none []
    emptyBatch t.ply (Nat.zero_le _) (by intro u hu; simp [emptyBatch] at hu)
  rw [Nat.sub_zero] at hmain
  have hflag : (flagInfo DELTA_SMALL DELTA_LARGE none g.moves t.ply).isSome = true :=
    hmain.1.1 ⟨t, ht', rfl⟩
  have hlt : t.ply < g.moves.length := by
    rcases runPlies_ply_mem DELTA_SMALL DELTA_LARGE g g.moves 0 none [] emptyBatch
      t ht' with h | h
    · simp [emptyBatch] at h
    · simpa using h.2
  obtain ⟨p, hp⟩ : ∃ p, g.moves.get? t.ply = some p := by
    cases hget : g.moves.get? t.ply with
    | none => exact absurd (List.get?_eq_none.1 hget) (by omega)
    | some p => exact ⟨p, rfl⟩
  rw [flagInfo_get _ _ g.moves t.ply p none hp] at hflag
  constructor
  · by_contra h0
    have h00 : t.ply = 0 := by omega
    rw [h00] at hflag
    simp [List.take, chainPrev, stepFlag] at hflag
  · refine ⟨p, hp, ?_⟩
    cases hraw : p.raw with
    | some v => rfl
    | none =>
      exfalso
      cases hc : chainPrev none (g.moves.take t.ply) with
      | none => rw [hc] at hflag; simp [stepFlag] at hflag
      | some v =>
        rw [hc] at hflag
        simp only [stepFlag, curScore, hraw, Option.getD_some] at hflag
        rw [flagCond_self DELTA_SMALL DELTA_LARGE v (by decide)] at hflag
        simp at hflag

/-- C5 amended witness: the concrete record of gFlag is at ply 1 and
its raw score is available. -/
theorem C5_amended_witness :
    gFlagTactic ∈ (runGameScript gFlag).all_tactics ∧
    (1 ≤ gFlagTactic.ply ∧
     ∃ p, gFlag.moves.get? gFlagTactic.ply = some p ∧ p.raw.isSome = true) :=
  ⟨by decide, C5_amended gFlag gFlagTactic (by decide)⟩

/-- C2 counterexample: the evaluation sequence records plain numbers
and no gap marker.  In gSubst the engine fails on ply 1 and the
sequence records the substituted previous score 100 there; in
gNoneOnly the engine fails on ply 0 and the sequence records the
literal 0.  This refutes both the gap marker and the
never-substituted, never-zero parts of the claim. -/
theorem C2_counterexample :
    (gSubst.moves.get? 1).map Ply.raw = some none ∧
    (scores gSubst).get? 1 = some 100 ∧ (scores gSubst).get? 0 = some 100 ∧
    (gNoneOnly.moves.get? 0).map Ply.raw = some none ∧
    (scores gNoneOnly).get? 0 = some 0 := by
  decide

/-- C2 amended: a ply whose score is unavailable is recorded in the
sequence as the carried-forward previous recorded score, or as the
literal 0 when it is the first ply; such a ply itself never triggers
a flag (its substituted delta is zero), and the running prev_eval is
left at the carried-forward value. -/
theorem C2_amended (g : Game) (k : Nat) (p : Ply)
    (hp : g.moves.get? k = some p) (hraw : p.raw = none) :
    (k = 0 → (scores g).get? 0 = some 0) ∧
    (1 ≤ k → (scores g).get? k = (scores g).get? (k - 1)) ∧
    ¬ ∃ t ∈ (runGameScript g).all_tactics, t.ply = k := by
  refine ⟨?_, ?_, ?_⟩
  · intro hk
    subst hk
    rw [scores, scoresAux_get g.moves 0 p none hp]
    simp [List.take, chainPrev, curScore, hraw]
  · intro hk
    obtain ⟨j, rfl⟩ : ∃ j, k = j + 1 := ⟨k - 1, by omega⟩
    obtain ⟨q, hq⟩ : ∃ q, g.moves.get? j = some q := by
      cases hget : g.moves.get? j with
      | none =>
        have hlen : g.moves.length ≤ j := List.get?_eq_none.1 hget
        have : g.moves.get? (j + 1) = none := List.get?_eq_none.2 (by omega)
        rw [this] at hp
        exact absurd hp (by simp)
      | some q => exact ⟨q, rfl⟩
    rw [scores]
    simp only [Nat.add_sub_cancel]
    rw [scoresAux_get g.moves (j + 1) p none hp,
      scoresAux_get g.moves j q none hq,
      chainPrev_take_succ g.moves j q none hq]
    simp [curScore, hraw]
  · rintro ⟨t, ht, rfl⟩
    have ht' : t ∈ (runPlies DELTA_SMALL DELTA_LARGE g g.moves 0 none []
        emptyBatch).2.all_tactics := ht
    have hmain := runPlies_flag_char DELTA_SMALL DELTA_LARGE g g.moves 0 none []
      emptyBatch t.ply (Nat.zero_le _) (by intro u hu; simp [emptyBatch] at hu)
    rw [Nat.sub_zero] at hmain
    have hflag : (flagInfo DELTA_SMALL DELTA_LARGE none g.moves t.ply).isSome = true :=
      hmain.1.1 ⟨t, ht', rfl⟩
    rw [flagInfo_get _ _ g.moves t.ply p none hp] at hflag
    cases hc : chainPrev none (g.moves.take t.ply) with
    | none => rw [hc] at hflag; simp [stepFlag] at hflag
    | some v =>
      rw [hc] at hflag
      simp only [stepFlag, curScore, hraw, Option.getD_some] at hflag
      rw [flagCond_self DELTA_SMALL DELTA_LARGE v (by decide)] at hflag
      simp at hflag

/-- C2 amended witness: in gSubst the failed ply 1 repeats the score
of ply 0 and is not flagged. -/
theorem C2_amended_witness :
    gSubst.moves.get? 1 = some { move := "e7e5", raw := none } ∧
    ({ move := "e7e5", raw := none } : Ply).raw = none ∧
    ((1 = 0 → (scores gSubst).get? 0 = some 0) ∧
     (1 ≤ 1 → (scores gSubst).get? 1 = (scores gSubst).get? 0) ∧
     ¬ ∃ t ∈ (runGameScript gSubst).all_tactics, t.ply = 1) :=
  ⟨by decide, by decide,
    C2_amended gSubst 1 { move := "e7e5", raw := none } (by decide) (by decide)⟩

/-- The loop only adds records of the good shape, provided the
processed prefix, the eval sequence, and prev_eval agree on entry. -/
theorem runPlies_goodRecord (dS dL : Int) (g : Game) :
    ∀ (ps done : List Ply) (pe : Option Int) (eseq : List Int) (st : BatchSt),
      g.moves = done ++ ps → done.length = eseq.length → pe = eseq.getLast? →
      (∀ t ∈ st.all_tactics, goodRecord dS dL t) →
      ∀ t ∈ (runPlies dS dL g ps eseq.length pe eseq st).2.all_tactics,
        goodRecord dS dL t := by
  intro ps
  induction ps with
  | nil =>
    intro done pe eseq st _ _ _ hst t ht
    simp only [runPlies] at ht
    exact hst t ht
  | cons p rest ih =>
    intro done pe eseq st hmoves hlen hpe hst t ht
    simp only [runPlies] at ht
    have hlen' : (done ++ [p]).length = (eseq ++ [curScore p pe]).length := by
      simp [hlen]
    have hst' : ∀ u ∈ (plyUpdate dS dL g eseq.length pe (curScore p pe)
        (eseq ++ [curScore p pe]) st).all_tactics, goodRecord dS dL u := by
      intro u hu
      rcases plyUpdate_mem dS dL g eseq.length pe _ _ st u hu with h | ⟨v, hv, hf, rfl⟩
      · exact hst u h
      · have hne : eseq ≠ [] := by
          intro he
          rw [he] at hpe
          rw [hv] at hpe
          simp at hpe
        have h1 : 1 ≤ eseq.length := by
          cases eseq with
          | nil => exact absurd rfl hne
          | cons a l => simp
        refine ⟨by simp [mkTactic], by simpa [mkTactic] using h1, ?_, v, curScore p pe,
          ?_, ?_, ?_, ?_, ?_⟩
        · simp only [mkTactic, List.length_map, hmoves, List.length_append,
            List.length_cons]
          omega
        · simp only [mkTactic]
          rw [List.get?_append (by omega)]
          rw [hv] at hpe
          rw [List.getLast?_eq_get?] at hpe
          exact hpe.symm
        · simp only [mkTactic]
          exact List.get?_concat_length eseq (curScore p pe)
        · simp only [mkTactic]
          exact List.getLast?_concat _
        · simp [mkTactic]
        · exact hf
    have happ : g.moves = (done ++ [p]) ++ rest := by
      rw [hmoves, List.append_assoc]
      rfl
    have hpe' : some (curScore p pe) = (eseq ++ [curScore p pe]).getLast? :=
      (List.getLast?_concat _).symm
    have := ih (done ++ [p]) (some (curScore p pe)) (eseq ++ [curScore p pe])
      (plyUpdate dS dL g eseq.length pe (curScore p pe) (eseq ++ [curScore p pe]) st)
      happ hlen' hpe' hst' t
    apply this
    have hlen'' : (eseq ++ [curScore p pe]).length = eseq.length + 1 := by simp
    rw [hlen'']
    exact ht

/-- C10: every record emitted during a batch run stores an eval
sequence of length exactly ply + 1, whose last element is the cur
score whose delta (against the recorded score just before it)
triggered the flag, and the record's ply index lies inside the owning
game's move list, carried in full in the record. -/
theorem C10_record_invariants (games : List Game) :
    ∀ t ∈ (runBatchScript games).all_tactics,
      t.eval_seq.length = t.ply + 1 ∧ 1 ≤ t.ply ∧ t.ply < t.moves.length ∧
      ∃ prev cur, t.eval_seq.get? (t.ply - 1) = some prev ∧
        t.eval_seq.get? t.ply = some cur ∧ t.eval_seq.getLast? = some cur ∧
        t.delta = cur - prev ∧
        flagCond DELTA_SMALL DELTA_LARGE prev cur = true := by
  have main : ∀ (gs : List Game) (st : BatchSt),
      (∀ t ∈ st.all_tactics, goodRecord DELTA_SMALL DELTA_LARGE t) →
      ∀ t ∈ (gs.foldl (fun st g => analyseGame DELTA_SMALL DELTA_LARGE g st)
        st).all_tactics, goodRecord DELTA_SMALL DELTA_LARGE t := by
    intro gs
    induction gs with
    | nil => intro st hst t ht; exact hst t ht
    | cons g rest ih =>
      intro st hst t ht
      refine ih _ ?_ t ht
      intro u hu
      exact runPlies_goodRecord DELTA_SMALL DELTA_LARGE g g.moves [] none [] st
        rfl rfl rfl hst u hu
  intro t ht
  exact main games emptyBatch (by intro u hu; simp [emptyBatch] at hu) t ht

/-- C10 witness: the concrete record of the batch over gFlag has the
stated shape. -/
theorem C10_record_invariants_witness :
    gFlagTactic ∈ (runBatchScript [gFlag]).all_tactics ∧
    (gFlagTactic.eval_seq.length = gFlagTactic.ply + 1 ∧ 1 ≤ gFlagTactic.ply ∧
      gFlagTactic.ply < gFlagTactic.moves.length ∧
      ∃ prev cur, gFlagTactic.eval_seq.get? (gFlagTactic.ply - 1) = some prev ∧
        gFlagTactic.eval_seq.get? gFlagTactic.ply = some cur ∧
        gFlagTactic.eval_seq.getLast? = some cur ∧
        gFlagTactic.delta = cur - prev ∧
        flagCond DELTA_SMALL DELTA_LARGE prev cur = true) :=
  ⟨by decide, C10_record_invariants [gFlag] gFlagTactic (by decide)⟩

/-- Through the loop, ids are drawn sequentially from 0, the k-th
record draws id k, and index_map is exactly the list of (id,
position) pairs, which coincide. -/
theorem runPlies_index_inv (dS dL : Int) (g : Game) :
    ∀ (ps : List Ply) (ply : Nat) (pe : Option Int) (eseq : List Int) (st : BatchSt),
      st.index_map = (List.range st.all_tactics.length).map (fun i => (i, i)) →
      st.all_tactics.map Tactic.id = List.range st.all_tactics.length →
      st.nextId = st.all_tactics.length →
      (runPlies dS dL g ps ply pe eseq st).2.index_map =
        (List.range (runPlies dS dL g ps ply pe eseq st).2.all_tactics.length).map
          (fun i => (i, i)) ∧
      (runPlies dS dL g ps ply pe eseq st).2.all_tactics.map Tactic.id =
        List.range (runPlies dS dL g ps ply pe eseq st).2.all_tactics.length ∧
      (runPlies dS dL g ps ply pe eseq st).2.nextId =
        (runPlies dS dL g ps ply pe eseq st).2.all_tactics.length := by
  intro ps
  induction ps with
  | nil =>
    intro ply pe eseq st h1 h2 h3
    simp only [runPlies]
    exact ⟨h1, h2, h3⟩
  | cons p rest ih =>
    intro ply pe eseq st h1 h2 h3
    simp only [runPlies]
    apply ih
    all_goals {
      unfold plyUpdate
      cases pe with
      | none => first | exact h1 | exact h2 | exact h3
      | some v =>
        dsimp only
        split
        · simp only [List.length_append, List.length_cons, List.length_nil,
            List.map_append, List.range_succ, List.map_cons, List.map_nil, h1, h2, h3,
            mkTactic]
        · first | exact h1 | exact h2 | exact h3
    }

/-- C8: with any injective identifier supply (modelling uuid4 as
collision-free), all record identifiers of a batch run are pairwise
distinct, and the identifier-to-position map is total and injective:
every record appears at the position its identifier maps to, no
identifier maps to two positions, no two identifiers map to the same
position, and every mapped position is a valid record position. -/
theorem C8_unique_ids {α : Type} (genId : Nat → α)
    (hinj : Function.Injective genId) (games : List Game) :
    ((runBatchScript games).all_tactics.map (fun t => genId t.id)).Nodup ∧
    (∀ t ∈ (runBatchScript games).all_tactics, ∃ i,
      (runBatchScript games).all_tactics.get? i = some t ∧
      (genId t.id, i) ∈ (runBatchScript games).index_map.map
        (fun e => (genId e.1, e.2))) ∧
    (∀ e ∈ (runBatchScript games).index_map.map (fun e => (genId e.1, e.2)),
     ∀ e' ∈ (runBatchScript games).index_map.map (fun e => (genId e.1, e.2)),
      e.1 = e'.1 → e = e') ∧
    (∀ e ∈ (runBatchScript games).index_map.map (fun e => (genId e.1, e.2)),
     ∀ e' ∈ (runBatchScript games).index_map.map (fun e => (genId e.1, e.2)),
      e.2 = e'.2 → e = e') ∧
    (∀ e ∈ (runBatchScript games).index_map.map (fun e => (genId e.1, e.2)),
      e.2 < (runBatchScript games).all_tactics.length) := by
  have inv : ∀ (gs : List Game) (st : BatchSt),
      st.index_map = (List.range st.all_tactics.length).map (fun i => (i, i)) →
      st.all_tactics.map Tactic.id = List.range st.all_tactics.length →
      st.nextId = st.all_tactics.length →
      (let r := gs.foldl (fun st g => analyseGame DELTA_SMALL DELTA_LARGE g st) st
       r.index_map = (List.range r.all_tactics.length).map (fun i => (i, i)) ∧
       r.all_tactics.map Tactic.id = List.range r.all_tactics.length ∧
       r.nextId = r.all_tactics.length) := by
    intro gs
    induction gs with
    | nil => intro st h1 h2 h3; exact ⟨h1, h2, h3⟩
    | cons g rest ih =>
      intro st h1 h2 h3
      have := runPlies_index_inv DELTA_SMALL DELTA_LARGE g g.moves 0 none [] st h1 h2 h3
      exact ih _ this.1 this.2.1 this.2.2
  have hout := inv games emptyBatch (by simp [emptyBatch]) (by simp [emptyBatch])
    (by simp [emptyBatch])
  obtain ⟨h1, h2, _⟩ := hout
  set st := runBatchScript games with hst
  have hstfold : st = games.foldl (fun st g => analyseGame DELTA_SMALL DELTA_LARGE g st)
      emptyBatch := rfl
  rw [← hstfold] at h1 h2
  have hm : st.index_map.map (fun e => (genId e.1, e.2)) =
      (List.range st.all_tactics.length).map (fun i => (genId i, i)) := by
    rw [h1, List.map_map]
    rfl
  have hid : ∀ (i : Nat) (t : Tactic), st.all_tactics.get? i = some t → t.id = i := by
    intro i t hget
    have hlt : i < st.all_tactics.length := by
      rcases List.get?_eq_some.1 hget with ⟨h, _⟩
      exact h
    have := congrArg (fun l => l.get? i) h2
    simp only [List.get?_map, hget, List.get?_range hlt, Option.map_some'] at this
    exact Option.some.inj this
  refine ⟨?_, ?_, ?_, ?_, ?_⟩
  · have : st.all_tactics.map (fun t => genId t.id) =
        (st.all_tactics.map Tactic.id).map genId := by
      rw [List.map_map]
      rfl
    rw [this, h2]
    exact (List.nodup_range _).map hinj
  · intro t ht
    obtain ⟨n, hn⟩ := List.get_of_mem ht
    have hget : st.all_tactics.get? n.1 = some t := by
      rw [List.get?_eq_get n.2, hn]
    refine ⟨n.1, hget, ?_⟩
    rw [hm]
    have := hid n.1 t hget
    rw [this]
    exact List.mem_map.2 ⟨n.1, List.mem_range.2 n.2, rfl⟩
  · intro e he e' he' h
    rw [hm] at he he'
    obtain ⟨i, hi, rfl⟩ := List.mem_map.1 he
    obtain ⟨j, hj, rfl⟩ := List.mem_map.1 he'
    have : i = j := hinj h
    rw [this]
  · intro e he e' he' h
    rw [hm] at he he'
    obtain ⟨i, hi, rfl⟩ := List.mem_map.1 he
    obtain ⟨j, hj, rfl⟩ := List.mem_map.1 he'
    simp only at h
    rw [h]
  · intro e he
    rw [hm] at he
    obtain ⟨i, hi, rfl⟩ := List.mem_map.1 he
    exact List.mem_range.1 hi

/-- C8 witness: with the identity supply on the one-game batch over
gFlag the hypotheses hold and the theorem applies. -/
theorem C8_unique_ids_witness :
    Function.Injective (fun n : Nat => n) ∧
    (((runBatchScript [gFlag]).all_tactics.map
        (fun t => (fun n : Nat => n) t.id)).Nodup ∧
    (∀ t ∈ (runBatchScript [gFlag]).all_tactics, ∃ i,
      (runBatchScript [gFlag]).all_tactics.get? i = some t ∧
      ((fun n : Nat => n) t.id, i) ∈ (runBatchScript [gFlag]).index_map.map
        (fun e => ((fun n : Nat => n) e.1, e.2))) ∧
    (∀ e ∈ (runBatchScript [gFlag]).index_map.map
        (fun e => ((fun n : Nat => n) e.1, e.2)),
     ∀ e' ∈ (runBatchScript [gFlag]).index_map.map
        (fun e => ((fun n : Nat => n) e.1, e.2)),
      e.1 = e'.1 → e = e') ∧
    (∀ e ∈ (runBatchScript [gFlag]).index_map.map
        (fun e => ((fun n : Nat => n) e.1, e.2)),
     ∀ e' ∈ (runBatchScript [gFlag]).index_map.map
        (fun e => ((fun n : Nat => n) e.1, e.2)),
      e.2 = e'.2 → e = e') ∧
    (∀ e ∈ (runBatchScript [gFlag]).index_map.map
        (fun e => ((fun n : Nat => n) e.1, e.2)),
      e.2 < (runBatchScript [gFlag]).all_tactics.length)) :=
  ⟨fun a b h => h, C8_unique_ids (fun n : Nat => n) (fun a b h => h) [gFlag]⟩

/-- A game none of whose plies gets flagged leaves the batch
accumulators exactly as they were. -/
theorem runPlies_no_flags (dS dL : Int) (g : Game) :
    ∀ (ps : List Ply) (ply : Nat) (pe : Option Int) (eseq : List Int) (st : BatchSt),
      flagCount dS dL pe ps = 0 → (runPlies dS dL g ps ply pe eseq st).2 = st := by
  intro ps
  induction ps with
  | nil => intro ply pe eseq st _; simp [runPlies]
  | cons p rest ih =>
    intro ply pe eseq st h
    cases pe with
    | none =>
      simp only [flagCount, Nat.zero_add] at h
      simp only [runPlies, plyUpdate]
      exact ih _ _ _ _ h
    | some v =>
      simp only [flagCount] at h
      by_cases hf : flagCond dS dL v (curScore p (some v)) = true
      · rw [if_pos hf] at h
        omega
      · rw [if_neg hf] at h
        simp only [Nat.zero_add] at h
        simp only [runPlies]
        have hupd : plyUpdate dS dL g ply (some v) (curScore p (some v))
            (eseq ++ [curScore p (some v)]) st = st := by
          unfold plyUpdate
          simp only [if_neg hf]
        rw [hupd]
        exact ih _ _ _ _ h

/-- C3 counterexample: the two-move game gNoFlag produces zero
flagged plies; the batch output over it contains no tactic records at
all, hence no evaluation sequence of the game's length, although the
analysis did compute a full two-entry sequence internally.  The
output of the batch loop (lines 107-164) exposes evaluation data only
through records. -/
theorem C3_counterexample :
    (runBatchScript [gNoFlag]).all_tactics = [] ∧
    gNoFlag.moves.length = 2 ∧
    (scores gNoFlag).length = 2 ∧
    ¬ ∃ s ∈ (runBatchScript [gNoFlag]).all_tactics.map Tactic.eval_seq,
      s.length = 2 := by
  decide

/-- C3 amended: a game with zero flagged plies contributes nothing to
the batch output; evaluation sequences reach downstream consumers
only as the eval_seq field of tactic records, truncated at the
flagged ply, so a batch whose games all produce zero flags ends with
the empty accumulators. -/
theorem C3_amended (games : List Game)
    (h : ∀ g ∈ games, flagCount DELTA_SMALL DELTA_LARGE none g.moves = 0) :
    runBatchScript games = emptyBatch := by
  have main : ∀ (gs : List Game) (st : BatchSt),
      (∀ g ∈ gs, flagCount DELTA_SMALL DELTA_LARGE none g.moves = 0) →
      gs.foldl (fun st g => analyseGame DELTA_SMALL DELTA_LARGE g st) st = st := by
    intro gs
    induction gs with
    | nil => intro st _; rfl
    | cons g rest ih =>
      intro st hz
      have hg : analyseGame DELTA_SMALL DELTA_LARGE g st = st :=
        runPlies_no_flags DELTA_SMALL DELTA_LARGE g g.moves 0 none [] st
          (hz g (List.mem_cons_self g rest))
      simp only [List.foldl_cons, hg]
      exact ih st (fun g' hg' => hz g' (List.mem_cons_of_mem g hg'))
  exact main games emptyBatch h

/-- C3 amended witness: over the single zero-flag game the hypothesis
holds and the output is empty. -/
theorem C3_amended_witness :
    (∀ g ∈ [gNoFlag], flagCount DELTA_SMALL DELTA_LARGE none g.moves = 0) ∧
    runBatchScript [gNoFlag] = emptyBatch :=
  ⟨by decide, C3_amended [gNoFlag] (by decide)⟩

/-- C4 counterexample: with an environment that sets delta_small to
50 and delta_large to 100, the loaded configuration still carries the
hard-coded 100 and 200, and the script's flag decision on the pair
prev = 0, cur = 120 is negative although the configured thresholds 50
and 100 would flag it as a gain.  The configured pair (50, 100) is
therefore not expressible. -/
theorem C4_counterexample :
    envDeltas.delta_small = some "50" ∧ envDeltas.delta_large = some "100" ∧
    (loadConfig envDeltas).delta_small = 100 ∧
    (loadConfig envDeltas).delta_large = 200 ∧
    configFlag envDeltas 0 120 = false ∧
    flagCond 50 100 0 120 = true := by
  decide

/-- C4 amended: only the engine path and the search depth are
environment-configurable; DELTA_SMALL and DELTA_LARGE are the
hard-coded literals 100 and 200, so the flag decision under every
environment equals the decision with thresholds 100 and 200. -/
theorem C4_amended (env : Env) :
    (loadConfig env).stockfish_path =
      env.stockfish_path.getD "/usr/local/bin/stockfish" ∧
    (loadConfig env).analyse_depth = env.analyse_depth.getD "15" ∧
    (loadConfig env).delta_small = 100 ∧
    (loadConfig env).delta_large = 200 ∧
    ∀ prev cur, configFlag env prev cur = flagCond 100 200 prev cur :=
  ⟨rfl, rfl, rfl, rfl, fun _ _ => rfl⟩

/-- C7 counterexample: a run whose uploaded file is blank acquires
the engine (line 77 runs before the upload gate) and exits through
st.stop at line 91 without ever reaching engine.quit at line 150: the
session is released zero times on this exit path, not exactly
once. -/
theorem C7_counterexample :
    (runScript true (some " ") (fun _ => [])).engineAcquired = true ∧
    (runScript true (some " ") (fun _ => [])).engineQuits = 0 ∧
    (runScript true (some " ") (fun _ => [])).exitKind = ExitKind.emptyPgn := by
  decide

/-- C7 amended: the engine session is released exactly once on the
completed path (even when individual evaluations failed, since those
are absorbed inside the loop), but zero times on the early exits
taken after acquisition (no upload, blank file, no games parsed); on
a fatal engine start no session exists and none is released. -/
theorem C7_amended (engineOk : Bool) (uploaded : Option String)
    (parseGames : String → List Game) :
    ((runScript engineOk uploaded parseGames).exitKind = ExitKind.completed →
      (runScript engineOk uploaded parseGames).engineQuits = 1 ∧
      (runScript engineOk uploaded parseGames).engineAcquired = true) ∧
    (((runScript engineOk uploaded parseGames).exitKind = ExitKind.noUpload ∨
      (runScript engineOk uploaded parseGames).exitKind = ExitKind.emptyPgn ∨
      (runScript engineOk uploaded parseGames).exitKind = ExitKind.noGames) →
      (runScript engineOk uploaded parseGames).engineAcquired = true ∧
      (runScript engineOk uploaded parseGames).engineQuits = 0) ∧
    ((runScript engineOk uploaded parseGames).exitKind = ExitKind.fatalInit →
      (runScript engineOk uploaded parseGames).engineAcquired = false ∧
      (runScript engineOk uploaded parseGames).engineQuits = 0) := by
  unfold runScript
  cases engineOk with
  | false => simp
  | true =>
    simp only [Bool.true_eq_false, if_false]
    cases uploaded with
    | none => simp
    | some txt =>
      by_cases ht : txt.data.all (fun c => c.isWhitespace) = true
      · simp [ht]
      · simp only [ht, if_false]
        cases hpg : parseGames txt with
        | nil => simp
        | cons g rest => simp

/-- C7 amended witness: the blank-upload run takes an early exit with
the session acquired and not released. -/
theorem C7_amended_witness :
    ((runScript true (some " ") (fun _ => [])).exitKind = ExitKind.noUpload ∨
     (runScript true (some " ") (fun _ => [])).exitKind = ExitKind.emptyPgn ∨
     (runScript true (some " ") (fun _ => [])).exitKind = ExitKind.noGames) ∧
    ((runScript true (some " ") (fun _ => [])).engineAcquired = true ∧
     (runScript true (some " ") (fun _ => [])).engineQuits = 0) :=
  ⟨by decide, (C7_amended true (some " ") (fun _ => [])).2.1 (by decide)⟩

/-- A successful association-list lookup returns an entry of the
list. -/
theorem lookup_mem :
    ∀ (m : List (String × Nat)) (s : String) (q : Nat),
      m.lookup s = some q → (s, q) ∈ m := by
  intro m
  induction m with
  | nil => intro s q h; simp [List.lookup] at h
  | cons e rest ih =>
    intro s q h
    cases e with
    | mk k v =>
      cases hk : s == k with
      | true =>
        simp only [List.lookup, hk] at h
        have hs : s = k := eq_of_beq hk
        cases h
        exact hs ▸ List.mem_cons_self _ _
      | false =>
        simp only [List.lookup, hk] at h
        exact List.mem_cons_of_mem _ (ih s q h)

/-- One navigation action keeps the cursor inside the valid range
when the index map's positions are valid. -/
theorem navStep_bounds (count : Nat) (m : List (String × Nat))
    (hc : 1 ≤ count) (hm : ∀ e ∈ m, e.2 < count) (i : Int) (op : NavOp)
    (hi0 : 0 ≤ i) (hi1 : i < (count : Int)) :
    0 ≤ navStep count m i op ∧ navStep count m i op < (count : Int) := by
  have hcount : (1 : Int) ≤ (count : Int) := by exact_mod_cast hc
  cases op with
  | back =>
    simp only [navStep]
    omega
  | forward =>
    simp only [navStep]
    omega
  | jump sel =>
    cases sel with
    | none => exact ⟨hi0, hi1⟩
    | some s =>
      simp only [navStep]
      cases hl : m.lookup s with
      | none => exact ⟨hi0, hi1⟩
      | some q =>
        dsimp only
        have hq : q < count := hm (s, q) (lookup_mem m s q hl)
        constructor
        · exact Int.ofNat_nonneg q
        · exact_mod_cast hq

/-- C9: with at least one record and an index map whose positions are
all valid, any sequence of navigation actions started inside the
range keeps the cursor within 0 and count - 1; the back button at 0
stays at 0, the forward button at count - 1 stays there, and a jump
whose selector is absent or unknown leaves the cursor unchanged. -/
theorem C9_navigation (count : Nat) (m : List (String × Nat)) (ops : List NavOp)
    (i0 : Int) (hc : 1 ≤ count) (hm : ∀ e ∈ m, e.2 < count)
    (h0 : 0 ≤ i0) (h1 : i0 < (count : Int)) :
    (0 ≤ ops.foldl (navStep count m) i0 ∧
      ops.foldl (navStep count m) i0 < (count : Int)) ∧
    navStep count m 0 NavOp.back = 0 ∧
    navStep count m ((count : Int) - 1) NavOp.forward = (count : Int) - 1 ∧
    (∀ s i, m.lookup s = none → navStep count m i (NavOp.jump (some s)) = i) ∧
    (∀ i, navStep count m i (NavOp.jump none) = i) := by
  refine ⟨?_, ?_, ?_, ?_, fun i => rfl⟩
  · have fold : ∀ (l : List NavOp) (i : Int), 0 ≤ i → i < (count : Int) →
        0 ≤ l.foldl (navStep count m) i ∧
        l.foldl (navStep count m) i < (count : Int) := by
      intro l
      induction l with
      | nil => intro i hi0 hi1; exact ⟨hi0, hi1⟩
      | cons op rest ih =>
        intro i hi0 hi1
        have := navStep_bounds count m hc hm i op hi0 hi1
        exact ih _ this.1 this.2
    exact fold ops i0 h0 h1
  · simp [navStep]
  · simp only [navStep]
    omega
  · intro s i hl
    simp [navStep, hl]

/-- C9 witness: a two-record index with one known key; the action
list steps back at 0, forward twice hitting the upper clamp, and
jumps to an unknown key. -/
theorem C9_navigation_witness :
    (1 ≤ 2 ∧ (∀ e ∈ [("a", 1)], e.2 < 2) ∧ (0 : Int) ≤ 0 ∧ (0 : Int) < (2 : Nat)) ∧
    ((0 ≤ [NavOp.back, NavOp.forward, NavOp.forward,
        NavOp.jump (some "b")].foldl (navStep 2 [("a", 1)]) 0 ∧
      [NavOp.back, NavOp.forward, NavOp.forward,
        NavOp.jump (some "b")].foldl (navStep 2 [("a", 1)]) 0 < ((2 : Nat) : Int)) ∧
    navStep 2 [("a", 1)] 0 NavOp.back = 0 ∧
    navStep 2 [("a", 1)] (((2 : Nat) : Int) - 1) NavOp.forward =
      ((2 : Nat) : Int) - 1 ∧
    (∀ s i, [("a", 1)].lookup s = none →
      navStep 2 [("a", 1)] i (NavOp.jump (some s)) = i) ∧
    (∀ i, navStep 2 [("a", 1)] i (NavOp.jump none) = i)) :=
  ⟨⟨by decide, by decide, by decide, by decide⟩,
    C9_navigation 2 [("a", 1)] [NavOp.back, NavOp.forward, NavOp.forward,
      NavOp.jump (some "b")] 0 (by decide) (by decide) (by decide) (by decide)⟩

end MissMeester
